import Mathlib

/-!
Shallow embedding of the `ReviewSystem` Solidity contract found in
`src/frontend/web/src/App.tsx` (lines 851-1003): a confidential peer-review
ledger with papers, encrypted review scores, homomorphic aggregation,
publication gating and proof-gated verification of review scores.

Modelling conventions:
* `euint32` ciphertexts are modelled by their plaintext value as a `Nat`
  reduced modulo `2^32`; `FHE.zero()` is `0`, `FHE.add` is addition mod `2^32`,
  `FHE.isZero` tests the value against `0`.
* `externalEuint32` inputs together with their ingestion proof are modelled as
  `Option Nat`: `some v` is a well-formed external ciphertext of `v`
  (`FHE.isInitialized` holds), `none` an ill-formed one.
* `FHE.checkSignatures` belongs to the external confidential-compute substrate;
  the contract only observes whether it accepts, so it is passed to
  `verifyReview` as an abstract boolean predicate `chk` over the ciphertext
  handles, the abi-encoded clear values and the decryption proof (all byte
  strings, modelled as `List Nat`).
* Solidity `mapping`s (default-valued total maps) are modelled as association
  lists plus a lookup that falls back to the all-zero default record.
* A reverted call leaves the state unchanged: `applyOp` keeps the pre-state
  whenever the operation returns an error.
-/

namespace ReviewSystem

/-- Modulus of the `euint32` ciphertext value space. -/
def U32 : Nat := 4294967296

/-- Homomorphic addition on `euint32` values (`FHE.add`). -/
def fheAdd (a b : Nat) : Nat := (a + b) % U32

/-- `FHE.zero()`. -/
def fheZero : Nat := 0

/-- `FHE.isZero` on an `euint32` value. -/
def fheIsZero (a : Nat) : Bool := a == 0

/-- `FHE.fromExternal(e, proof)`: the ingested `euint32` value (garbage `0` when
the external ciphertext is ill-formed; the contract only reaches this value
after `FHE.isInitialized` passed). -/
def fromExternal (e : Option Nat) : Nat := (e.getD 0) % U32

/-- `FHE.isInitialized(FHE.fromExternal(e, proof))`. -/
def isInitialized (e : Option Nat) : Bool := e.isSome

/-- `FHE.toBytes32` on a handle, abstracted to the identity on the modelled
ciphertext value. -/
def toBytes32 (v : Nat) : Nat := v

/-- UTF-8 encoding of one character, as byte values. -/
def charUtf8 (c : Char) : List Nat :=
  let n := c.toNat
  if n < 128 then [n]
  else if n < 2048 then [192 + n / 64, 128 + n % 64]
  else if n < 65536 then [224 + n / 4096, 128 + n / 64 % 64, 128 + n % 64]
  else [240 + n / 262144, 128 + n / 4096 % 64, 128 + n / 64 % 64, 128 + n % 64]

/-- The byte string of a Solidity `string` (UTF-8), as Solidity's
`bytes(s)` exposes it. -/
def strBytes (s : String) : List Nat := (s.data.map charUtf8).flatten

/-- `bytes(s).length` for a Solidity string. -/
def bytesLen (s : String) : Nat := (strBytes s).length

/-- Big-endian 32-byte encoding of a `uint256`, as `abi.encodePacked` emits it. -/
def be32 (i : Nat) : List Nat :=
  (List.range 32).map (fun k => i / 2 ^ (8 * (31 - k)) % 256)

/-- The key `abi.encodePacked(paperId, "_", uint256(i))` used for the top-level
`reviews` mapping (byte 95 is the underscore). -/
def encKey (pid : String) (i : Nat) : List Nat := strBytes pid ++ [95] ++ be32 i

/-- The `Review` struct (App.tsx lines 857-863). `encryptedScore` is the
modelled `euint32`; addresses are modelled as `Nat`. -/
structure Review where
  encryptedScore : Nat
  encryptedComments : String
  reviewer : Nat
  submissionDate : Nat
  isVerified : Bool
deriving DecidableEq, Repr

/-- The `Paper` struct (App.tsx lines 865-873). -/
structure Paper where
  title : String
  encryptedContent : Nat
  submitter : Nat
  submissionDate : Nat
  reviews : List Review
  aggregatedScore : Nat
  isPublished : Bool
deriving DecidableEq, Repr

/-- Default (all-zero) `Review`, the value a Solidity mapping yields for an
absent key. -/
def defaultReview : Review :=
  { encryptedScore := 0, encryptedComments := "", reviewer := 0
  , submissionDate := 0, isVerified := false }

/-- Default (all-zero) `Paper`, the value a Solidity mapping yields for an
absent key. -/
def defaultPaper : Paper :=
  { title := "", encryptedContent := 0, submitter := 0, submissionDate := 0
  , reviews := [], aggregatedScore := 0, isPublished := false }

/-- Association-list lookup (first binding wins). -/
def alookup {α β : Type} [DecidableEq α] : List (α × β) → α → Option β
  | [], _ => none
  | (k', v) :: t, k => if k' = k then some v else alookup t k

/-- Association-list update: bind `k` to `v`, dropping any previous binding. -/
def aupd {α β : Type} [DecidableEq α] (l : List (α × β)) (k : α) (v : β) :
    List (α × β) :=
  (k, v) :: l.filter (fun e => decide (e.1 ≠ k))

/-- Contract storage: `mapping(string => Paper) papers` and
`mapping(string => Review) reviews` (the latter keyed by
`abi.encodePacked(paperId, "_", uint256(index))` byte strings). -/
structure ContractState where
  papers : List (String × Paper)
  reviewsMap : List (List Nat × Review)
deriving DecidableEq, Repr

/-- `papers[paperId]` with the mapping's default-value semantics. -/
def getPaper (st : ContractState) (pid : String) : Paper :=
  (alookup st.papers pid).getD defaultPaper

/-- Write `papers[paperId]`. -/
def putPaper (st : ContractState) (pid : String) (p : Paper) : ContractState :=
  { st with papers := aupd st.papers pid p }

/-- `reviews[key]` (top-level mapping) with default-value semantics. -/
def getSnap (st : ContractState) (k : List Nat) : Review :=
  (alookup st.reviewsMap k).getD defaultReview

/-- Revert reasons of the contract, one per `require` message plus the revert
raised inside `FHE.checkSignatures`. -/
inductive Err where
  | paperAlreadyExists      -- "Paper already exists"
  | invalidEncryptedContent -- "Invalid encrypted content"
  | paperDoesNotExist       -- "Paper does not exist"
  | invalidEncryptedScore   -- "Invalid encrypted score"
  | noReviewsToAggregate    -- "No reviews to aggregate"
  | scoresNotAggregated     -- "Scores not aggregated"
  | paperAlreadyPublished   -- "Paper already published"
  | invalidReviewIndex      -- "Invalid review index"
  | reviewAlreadyVerified   -- "Review already verified"
  | invalidProof            -- revert inside FHE.checkSignatures
deriving DecidableEq, Repr

instance instDecEqExceptRS {ε α : Type} [DecidableEq ε] [DecidableEq α] :
    DecidableEq (Except ε α) := fun a b =>
  match a, b with
  | .ok x, .ok y =>
    if h : x = y then .isTrue (congrArg Except.ok h)
    else .isFalse (fun hc => h (Except.ok.inj hc))
  | .error x, .error y =>
    if h : x = y then .isTrue (congrArg Except.error h)
    else .isFalse (fun hc => h (Except.error.inj hc))
  | .ok _, .error _ => .isFalse (fun hc => Except.noConfusion hc)
  | .error _, .ok _ => .isFalse (fun hc => Except.noConfusion hc)

/-- `submitPaper` (App.tsx lines 885-908). `content` is the external
ciphertext/proof pair; `sender` is `msg.sender`, `ts` is `block.timestamp`.
The FHE ACL calls (`allowThis`, `makePubliclyDecryptable`) touch only the
external substrate and are not part of the contract storage. -/
def submitPaper (st : ContractState) (pid title : String) (content : Option Nat)
    (sender ts : Nat) : Except Err ContractState :=
  if bytesLen (getPaper st pid).title ≠ 0 then .error .paperAlreadyExists
  else if isInitialized content then
    .ok (putPaper st pid
      { title := title, encryptedContent := fromExternal content
      , submitter := sender, submissionDate := ts, reviews := []
      , aggregatedScore := fheZero, isPublished := false })
  else .error .invalidEncryptedContent

/-- The `Review` record built by `submitReview`. -/
def mkReview (score : Option Nat) (comments : String) (sender ts : Nat) :
    Review :=
  { encryptedScore := fromExternal score, encryptedComments := comments
  , reviewer := sender, submissionDate := ts, isVerified := false }

/-- `submitReview` (App.tsx lines 910-934): appends the review to
`papers[paperId].reviews` and writes a copy into the top-level `reviews`
mapping under `abi.encodePacked(paperId, "_", uint256(newLength - 1))`. -/
def submitReview (st : ContractState) (pid : String) (score : Option Nat)
    (comments : String) (sender ts : Nat) : Except Err ContractState :=
  if bytesLen (getPaper st pid).title = 0 then .error .paperDoesNotExist
  else if isInitialized score then
    let p := getPaper st pid
    let r := mkReview score comments sender ts
    let p' := { p with reviews := p.reviews ++ [r] }
    .ok { putPaper st pid p' with
          reviewsMap :=
            aupd st.reviewsMap (encKey pid (p'.reviews.length - 1)) r }
  else .error .invalidEncryptedScore

/-- The fold `aggregateScores` performs: `FHE.zero()` then `FHE.add` with each
review's score, in ascending index order. -/
def foldAgg (rs : List Review) : Nat :=
  rs.foldl (fun acc r => fheAdd acc r.encryptedScore) fheZero

/-- `aggregateScores` (App.tsx lines 936-947). -/
def aggregateScores (st : ContractState) (pid : String) :
    Except Err ContractState :=
  if bytesLen (getPaper st pid).title = 0 then .error .paperDoesNotExist
  else if (getPaper st pid).reviews.length = 0 then .error .noReviewsToAggregate
  else
    .ok (putPaper st pid
      { getPaper st pid with aggregatedScore := foldAgg (getPaper st pid).reviews })

/-- `publishPaper` (App.tsx lines 949-956). The "scores not aggregated" gate is
`!FHE.isZero(papers[paperId].aggregatedScore)`. -/
def publishPaper (st : ContractState) (pid : String) : Except Err ContractState :=
  if bytesLen (getPaper st pid).title = 0 then .error .paperDoesNotExist
  else if fheIsZero (getPaper st pid).aggregatedScore then
    .error .scoresNotAggregated
  else if (getPaper st pid).isPublished then .error .paperAlreadyPublished
  else .ok (putPaper st pid { getPaper st pid with isPublished := true })

/-- `getReviewDetails` (App.tsx lines 970-981): reads the review stored inside
`papers[paperId].reviews[reviewIndex]`. -/
def getReviewDetails (st : ContractState) (pid : String) (i : Nat) :
    Except Err (Nat × String × Nat × Nat × Bool) :=
  if bytesLen (getPaper st pid).title = 0 then .error .paperDoesNotExist
  else if i < (getPaper st pid).reviews.length then
    let r := (getPaper st pid).reviews.getD i defaultReview
    .ok (r.encryptedScore, r.encryptedComments, r.reviewer, r.submissionDate,
         r.isVerified)
  else .error .invalidReviewIndex

/-- Type of the abstract substrate signature check `FHE.checkSignatures`:
ciphertext handles, abi-encoded clear values, decryption proof. -/
def Chk : Type := List Nat → List Nat → List Nat → Bool

/-- `verifyReview` (App.tsx lines 983-998): proof-gated verification of one
review score. On success the only storage write is
`papers[paperId].reviews[reviewIndex].isVerified = true`. -/
def verifyReview (chk : Chk) (st : ContractState) (pid : String) (i : Nat)
    (clear pr : List Nat) : Except Err ContractState :=
  if bytesLen (getPaper st pid).title = 0 then .error .paperDoesNotExist
  else if i < (getPaper st pid).reviews.length then
    let p := getPaper st pid
    let r := p.reviews.getD i defaultReview
    if r.isVerified then .error .reviewAlreadyVerified
    else if chk [toBytes32 r.encryptedScore] clear pr then
      .ok (putPaper st pid
        { p with reviews := p.reviews.set i { r with isVerified := true } })
    else .error .invalidProof
  else .error .invalidReviewIndex

/-- External transactions against the contract. -/
inductive Op where
  | submitPaper (pid title : String) (content : Option Nat) (sender ts : Nat)
  | submitReview (pid : String) (score : Option Nat) (comments : String)
      (sender ts : Nat)
  | aggregateScores (pid : String)
  | publishPaper (pid : String)
  | verifyReview (pid : String) (i : Nat) (clear pr : List Nat)

/-- Run one transaction. -/
def runOp (chk : Chk) (st : ContractState) : Op → Except Err ContractState
  | .submitPaper pid t c s ts => submitPaper st pid t c s ts
  | .submitReview pid sc c s ts => submitReview st pid sc c s ts
  | .aggregateScores pid => aggregateScores st pid
  | .publishPaper pid => publishPaper st pid
  | .verifyReview pid i clear pr => verifyReview chk st pid i clear pr

/-- Transaction semantics with revert: a failing call leaves storage unchanged. -/
def applyOp (chk : Chk) (st : ContractState) (op : Op) : ContractState :=
  match runOp chk st op with
  | .ok st' => st'
  | .error _ => st

/-- Run a sequence of transactions from a state. -/
def execFrom (chk : Chk) (st : ContractState) (ops : List Op) : ContractState :=
  ops.foldl (applyOp chk) st

/-- Freshly deployed contract: both mappings empty. -/
def initState : ContractState := { papers := [], reviewsMap := [] }

/-- A substrate check that accepts every proof. -/
def chkTrue : Chk := fun _ _ _ => true

/-- A substrate check that rejects every proof. -/
def chkFalse : Chk := fun _ _ _ => false

/-! ### Association-list lemmas -/

theorem alookup_aupd_self {α β : Type} [DecidableEq α] (l : List (α × β))
    (k : α) (v : β) : alookup (aupd l k v) k = some v := by
  simp [aupd, alookup]

theorem alookup_filter_ne {α β : Type} [DecidableEq α] (l : List (α × β))
    (k k' : α) (h : k' ≠ k) :
    alookup (l.filter (fun e => decide (e.1 ≠ k))) k' = alookup l k' := by
  induction l with
  | nil => rfl
  | cons e t ih =>
    obtain ⟨e1, e2⟩ := e
    by_cases he : e1 = k
    · subst he
      have h1 : (decide (((e1, e2).1 ≠ e1))) = false := by simp
      rw [List.filter_cons, h1]
      simp only [Bool.false_eq_true, if_false]
      rw [ih]
      simp only [alookup]
      rw [if_neg (fun hh => h hh.symm)]
    · have h1 : (decide (((e1, e2).1 ≠ k))) = true := by simp [he]
      rw [List.filter_cons, h1]
      simp only [if_true]
      simp only [alookup]
      by_cases h2 : e1 = k'
      · rw [if_pos h2, if_pos h2]
      · rw [if_neg h2, if_neg h2]
        exact ih

theorem alookup_aupd_ne {α β : Type} [DecidableEq α] (l : List (α × β))
    (k k' : α) (v : β) (h : k' ≠ k) :
    alookup (aupd l k v) k' = alookup l k' := by
  simp only [aupd, alookup]
  rw [if_neg (fun hh => h hh.symm)]
  exact alookup_filter_ne l k k' h

theorem getPaper_putPaper_self (st : ContractState) (pid : String) (p : Paper) :
    getPaper (putPaper st pid p) pid = p := by
  simp [getPaper, putPaper, alookup_aupd_self]

theorem getPaper_putPaper_ne (st : ContractState) (pid pid' : String)
    (p : Paper) (h : pid' ≠ pid) :
    getPaper (putPaper st pid p) pid' = getPaper st pid' := by
  simp [getPaper, putPaper, alookup_aupd_ne _ _ _ _ h]

theorem putPaper_reviewsMap (st : ContractState) (pid : String) (p : Paper) :
    (putPaper st pid p).reviewsMap = st.reviewsMap := rfl

/-! ### Arithmetic of the aggregation fold -/

theorem U32_pos : 0 < U32 := by decide

theorem foldl_fheAdd_eq (l : List Review) (a : Nat) (ha : a < U32) :
    l.foldl (fun acc r => fheAdd acc r.encryptedScore) a
      = (a + (l.map (fun r => r.encryptedScore)).sum) % U32 := by
  induction l generalizing a with
  | nil => simpa using (Nat.mod_eq_of_lt ha).symm
  | cons x t ih =>
    simp only [List.foldl_cons, List.map_cons, List.sum_cons]
    rw [ih (fheAdd a x.encryptedScore) (Nat.mod_lt _ U32_pos)]
    simp only [fheAdd]
    rw [Nat.mod_add_mod]
    ring_nf

/-- The aggregation fold equals the plain sum of the scores, reduced mod
`2^32`. -/
theorem foldAgg_eq_sum (rs : List Review) :
    foldAgg rs = ((rs.map (fun r => r.encryptedScore)).sum) % U32 := by
  simpa [foldAgg, fheZero] using foldl_fheAdd_eq rs 0 U32_pos

/-- The aggregation fold is invariant under permutations of the review list. -/
theorem foldAgg_perm (rs₁ rs₂ : List Review) (h : rs₁.Perm rs₂) :
    foldAgg rs₁ = foldAgg rs₂ := by
  rw [foldAgg_eq_sum, foldAgg_eq_sum, (h.map (fun r => r.encryptedScore)).sum_eq]

/-! ### List helpers -/

theorem take_append_of_le' {α : Type} (l₁ l₂ : List α) (n : Nat)
    (h : n ≤ l₁.length) : (l₁ ++ l₂).take n = l₁.take n := by
  rw [List.take_append_eq_append_take, Nat.sub_eq_zero_of_le h, List.take_zero,
    List.append_nil]

theorem getD_set_eq {α : Type} (l : List α) (i : Nat) (a d : α)
    (h : i < l.length) : (l.set i a).getD i d = a := by
  induction l generalizing i with
  | nil => simp at h
  | cons x t ih =>
    cases i with
    | zero => rfl
    | succ j =>
      simp only [List.set_cons_succ, List.getD_cons_succ]
      exact ih j (by simpa using h)

theorem getD_set_ne {α : Type} (l : List α) (i j : Nat) (a d : α)
    (h : j ≠ i) : (l.set i a).getD j d = l.getD j d := by
  induction l generalizing i j with
  | nil => rfl
  | cons x t ih =>
    cases i with
    | zero =>
      cases j with
      | zero => exact absurd rfl h
      | succ j' => rfl
    | succ i' =>
      cases j with
      | zero => rfl
      | succ j' =>
        simp only [List.set_cons_succ, List.getD_cons_succ]
        exact ih i' j' (fun hh => h (by rw [hh]))

/-- Overwriting a review with one of equal score leaves the score word of the
list unchanged. -/
theorem map_score_set (rs : List Review) (i : Nat) (r' : Review)
    (h : r'.encryptedScore = (rs.getD i defaultReview).encryptedScore) :
    (rs.set i r').map (fun r => r.encryptedScore)
      = rs.map (fun r => r.encryptedScore) := by
  induction rs generalizing i with
  | nil => rfl
  | cons x t ih =>
    cases i with
    | zero =>
      simp only [List.set_cons_zero, List.map_cons]
      rw [show r'.encryptedScore = x.encryptedScore from h]
    | succ j =>
      simp only [List.set_cons_succ, List.map_cons]
      rw [ih j (by simpa using h)]

/-- Marking one review verified does not change any truncated aggregation
fold. -/
theorem foldAgg_take_set (rs : List Review) (i k : Nat) (r' : Review)
    (h : r'.encryptedScore = (rs.getD i defaultReview).encryptedScore) :
    foldAgg ((rs.set i r').take k) = foldAgg (rs.take k) := by
  rw [foldAgg_eq_sum, foldAgg_eq_sum, List.map_take, List.map_take,
    map_score_set rs i r' h]

/-! ### State invariant and monotonicity order -/

/-- Per-paper invariant maintained by every transaction:
* a paper whose `title` is empty is one the contract treats as nonexistent,
  and it carries no reviews, a zero aggregate and no publication flag;
* a nonzero `aggregatedScore` was produced by the aggregation fold over the
  first `k` reviews for some `1 ≤ k` (reviews submitted after the last
  aggregation extend the list beyond `k`);
* a published paper exists and its aggregate was produced by folding at least
  one review's score handle. -/
def PInv (p : Paper) : Prop :=
  (bytesLen p.title = 0 →
    p.reviews = [] ∧ p.aggregatedScore = 0 ∧ p.isPublished = false) ∧
  (p.aggregatedScore ≠ 0 →
    ∃ k, 1 ≤ k ∧ k ≤ p.reviews.length ∧
      p.aggregatedScore = foldAgg (p.reviews.take k)) ∧
  (p.isPublished = true →
    bytesLen p.title ≠ 0 ∧
    ∃ k, 1 ≤ k ∧ k ≤ p.reviews.length ∧
      p.aggregatedScore = foldAgg (p.reviews.take k))

/-- Global invariant: every paper record satisfies `PInv`. -/
def Inv (st : ContractState) : Prop := ∀ pid, PInv (getPaper st pid)

/-- A review only evolves by flipping `isVerified` from false to true; all
other fields are frozen at submission time. -/
def reviewLE (r r' : Review) : Prop :=
  r'.encryptedScore = r.encryptedScore ∧
  r'.encryptedComments = r.encryptedComments ∧
  r'.reviewer = r.reviewer ∧
  r'.submissionDate = r.submissionDate ∧
  (r.isVerified = true → r'.isVerified = true)

/-- Per-paper monotonicity: an existing paper keeps its title, `isPublished`
never reverts, the review sequence only grows at the end, and each review at a
fixed index only evolves by `reviewLE`. -/
def paperLE (p p' : Paper) : Prop :=
  (bytesLen p.title ≠ 0 → p'.title = p.title) ∧
  (p.isPublished = true → p'.isPublished = true) ∧
  p.reviews.length ≤ p'.reviews.length ∧
  (∀ i, i < p.reviews.length →
    reviewLE (p.reviews.getD i defaultReview) (p'.reviews.getD i defaultReview))

/-- Global monotonicity order between states along transaction execution. -/
def stateLE (st st' : ContractState) : Prop :=
  ∀ pid, paperLE (getPaper st pid) (getPaper st' pid)

theorem reviewLE_refl (r : Review) : reviewLE r r :=
  ⟨rfl, rfl, rfl, rfl, fun h => h⟩

theorem paperLE_refl (p : Paper) : paperLE p p :=
  ⟨fun _ => rfl, fun h => h, Nat.le_refl _, fun _ _ => reviewLE_refl _⟩

theorem stateLE_refl (st : ContractState) : stateLE st st :=
  fun _ => paperLE_refl _

theorem reviewLE_trans {r₁ r₂ r₃ : Review} (h₁ : reviewLE r₁ r₂)
    (h₂ : reviewLE r₂ r₃) : reviewLE r₁ r₃ := by
  obtain ⟨a1, b1, c1, d1, e1⟩ := h₁
  obtain ⟨a2, b2, c2, d2, e2⟩ := h₂
  exact ⟨a2.trans a1, b2.trans b1, c2.trans c1, d2.trans d1,
    fun h => e2 (e1 h)⟩

theorem paperLE_trans {p₁ p₂ p₃ : Paper} (h₁ : paperLE p₁ p₂)
    (h₂ : paperLE p₂ p₃) : paperLE p₁ p₃ := by
  obtain ⟨a1, b1, c1, d1⟩ := h₁
  obtain ⟨a2, b2, c2, d2⟩ := h₂
  refine ⟨?_, fun h => b2 (b1 h), c1.trans c2, ?_⟩
  · intro h
    have ht := a1 h
    have h2 : bytesLen p₂.title ≠ 0 := by rw [ht]; exact h
    rw [a2 h2, ht]
  · intro i hi
    exact reviewLE_trans (d1 i hi) (d2 i (Nat.lt_of_lt_of_le hi c1))

theorem stateLE_trans {st₁ st₂ st₃ : ContractState} (h₁ : stateLE st₁ st₂)
    (h₂ : stateLE st₂ st₃) : stateLE st₁ st₃ :=
  fun pid => paperLE_trans (h₁ pid) (h₂ pid)

/-! ### Inversion lemmas for successful transactions -/

/-- Replace the top-level `reviews` mapping of a state. -/
def setRM (st : ContractState) (m : List (List Nat × Review)) : ContractState :=
  { st with reviewsMap := m }

theorem getPaper_setRM (st : ContractState) (m : List (List Nat × Review))
    (pid : String) : getPaper (setRM st m) pid = getPaper st pid := rfl

theorem applyOp_of_error {chk : Chk} {st : ContractState} {op : Op} {e : Err}
    (h : runOp chk st op = .error e) : applyOp chk st op = st := by
  simp [applyOp, h]

theorem applyOp_of_ok {chk : Chk} {st st' : ContractState} {op : Op}
    (h : runOp chk st op = .ok st') : applyOp chk st op = st' := by
  simp [applyOp, h]

theorem submitPaper_ok {st st' : ContractState} {pid t : String}
    {c : Option Nat} {s ts : Nat} (h : submitPaper st pid t c s ts = .ok st') :
    bytesLen (getPaper st pid).title = 0 ∧ isInitialized c = true ∧
    st' = putPaper st pid
      { title := t, encryptedContent := fromExternal c, submitter := s
      , submissionDate := ts, reviews := [], aggregatedScore := fheZero
      , isPublished := false } := by
  unfold submitPaper at h
  split at h
  · exact absurd h (by simp)
  · split at h
    · rename_i h1 h2
      exact ⟨by omega, h2, (Except.ok.inj h).symm⟩
    · exact absurd h (by simp)

theorem submitReview_ok {st st' : ContractState} {pid : String}
    {sc : Option Nat} {c : String} {s ts : Nat}
    (h : submitReview st pid sc c s ts = .ok st') :
    bytesLen (getPaper st pid).title ≠ 0 ∧ isInitialized sc = true ∧
    st' = setRM (putPaper st pid
              { getPaper st pid with
                reviews := (getPaper st pid).reviews ++ [mkReview sc c s ts] })
            (aupd st.reviewsMap
              (encKey pid (getPaper st pid).reviews.length)
              (mkReview sc c s ts)) := by
  unfold submitReview at h
  split at h
  · exact absurd h (by simp)
  · split at h
    · rename_i h1 h2
      refine ⟨h1, h2, ?_⟩
      have := (Except.ok.inj h).symm
      simpa using this
    · exact absurd h (by simp)

theorem aggregateScores_ok {st st' : ContractState} {pid : String}
    (h : aggregateScores st pid = .ok st') :
    bytesLen (getPaper st pid).title ≠ 0 ∧
    (getPaper st pid).reviews.length ≠ 0 ∧
    st' = putPaper st pid
      { getPaper st pid with
        aggregatedScore := foldAgg (getPaper st pid).reviews } := by
  unfold aggregateScores at h
  split at h
  · exact absurd h (by simp)
  · split at h
    · exact absurd h (by simp)
    · rename_i h1 h2
      exact ⟨h1, h2, (Except.ok.inj h).symm⟩

theorem publishPaper_ok {st st' : ContractState} {pid : String}
    (h : publishPaper st pid = .ok st') :
    bytesLen (getPaper st pid).title ≠ 0 ∧
    (getPaper st pid).aggregatedScore ≠ 0 ∧
    (getPaper st pid).isPublished = false ∧
    st' = putPaper st pid { getPaper st pid with isPublished := true } := by
  unfold publishPaper at h
  split at h
  · exact absurd h (by simp)
  · split at h
    · exact absurd h (by simp)
    · split at h
      · exact absurd h (by simp)
      · rename_i h1 h2 h3
        refine ⟨h1, ?_, by simpa using h3, (Except.ok.inj h).symm⟩
        simpa [fheIsZero] using h2

theorem verifyReview_ok {chk : Chk} {st st' : ContractState} {pid : String}
    {i : Nat} {clear pr : List Nat}
    (h : verifyReview chk st pid i clear pr = .ok st') :
    bytesLen (getPaper st pid).title ≠ 0 ∧
    i < (getPaper st pid).reviews.length ∧
    ((getPaper st pid).reviews.getD i defaultReview).isVerified = false ∧
    st' = putPaper st pid
      { getPaper st pid with
        reviews := (getPaper st pid).reviews.set i
          { (getPaper st pid).reviews.getD i defaultReview with
            isVerified := true } } := by
  unfold verifyReview at h
  split at h
  · exact absurd h (by simp)
  · split at h
    · dsimp only at h
      split at h
      · exact absurd h (by simp)
      · split at h
        · rename_i h1 h2 h3 h4
          exact ⟨h1, h2, by simpa using h3, (Except.ok.inj h).symm⟩
        · exact absurd h (by simp)
    · exact absurd h (by simp)

/-! ### Preservation of the invariant and monotonicity along transactions -/

theorem putPaper_inv_le {st : ContractState} {pid : String} {p : Paper}
    (h : Inv st) (hP : PInv p) (hle : paperLE (getPaper st pid) p) :
    Inv (putPaper st pid p) ∧ stateLE st (putPaper st pid p) := by
  constructor
  · intro pid'
    by_cases he : pid' = pid
    · subst he; rw [getPaper_putPaper_self]; exact hP
    · rw [getPaper_putPaper_ne _ _ _ _ he]; exact h pid'
  · intro pid'
    by_cases he : pid' = pid
    · subst he; rw [getPaper_putPaper_self]; exact hle
    · rw [getPaper_putPaper_ne _ _ _ _ he]; exact paperLE_refl _

theorem step_inv_le (chk : Chk) (st : ContractState) (op : Op) (h : Inv st) :
    Inv (applyOp chk st op) ∧ stateLE st (applyOp chk st op) := by
  cases op with
  | submitPaper pid t c s ts =>
    rcases hr : runOp chk st (.submitPaper pid t c s ts) with e | st₂
    · rw [applyOp_of_error hr]; exact ⟨h, stateLE_refl st⟩
    · rw [applyOp_of_ok hr]
      obtain ⟨h0, hc, rfl⟩ := submitPaper_ok hr
      obtain ⟨hA, hB, hC⟩ := h pid
      obtain ⟨hrev, hagg, hpub⟩ := hA h0
      apply putPaper_inv_le h
      · exact ⟨fun _ => ⟨rfl, rfl, rfl⟩, fun hc2 => absurd rfl hc2,
          fun hc2 => by simp at hc2⟩
      · refine ⟨fun hne => absurd h0 hne, ?_, ?_, ?_⟩
        · intro hp2; rw [hpub] at hp2; exact absurd hp2 (by simp)
        · rw [hrev]
        · intro i hi; rw [hrev] at hi; simp at hi
  | submitReview pid sc c s ts =>
    rcases hr : runOp chk st (.submitReview pid sc c s ts) with e | st₂
    · rw [applyOp_of_error hr]; exact ⟨h, stateLE_refl st⟩
    · rw [applyOp_of_ok hr]
      obtain ⟨hex, hsc, rfl⟩ := submitReview_ok hr
      obtain ⟨hA, hB, hC⟩ := h pid
      have hP : PInv { getPaper st pid with
          reviews := (getPaper st pid).reviews ++ [mkReview sc c s ts] } := by
        refine ⟨fun hc2 => absurd hc2 hex, ?_, ?_⟩
        · intro hagg
          obtain ⟨k, hk1, hk2, hk3⟩ := hB hagg
          refine ⟨k, hk1, ?_, ?_⟩
          · simp only [List.length_append, List.length_cons, List.length_nil]
            omega
          · rw [take_append_of_le' _ _ _ hk2]; exact hk3
        · intro hpub
          obtain ⟨ht, k, hk1, hk2, hk3⟩ := hC hpub
          refine ⟨ht, k, hk1, ?_, ?_⟩
          · simp only [List.length_append, List.length_cons, List.length_nil]
            omega
          · rw [take_append_of_le' _ _ _ hk2]; exact hk3
      have hle : paperLE (getPaper st pid) { getPaper st pid with
          reviews := (getPaper st pid).reviews ++ [mkReview sc c s ts] } := by
        refine ⟨fun _ => rfl, fun hp2 => hp2, ?_, ?_⟩
        · simp
        · intro i hi
          rw [List.getD_append _ _ _ _ hi]
          exact reviewLE_refl _
      exact ⟨(putPaper_inv_le h hP hle).1, (putPaper_inv_le h hP hle).2⟩
  | aggregateScores pid =>
    rcases hr : runOp chk st (.aggregateScores pid) with e | st₂
    · rw [applyOp_of_error hr]; exact ⟨h, stateLE_refl st⟩
    · rw [applyOp_of_ok hr]
      obtain ⟨hex, hlen, rfl⟩ := aggregateScores_ok hr
      have hk : ∃ k, 1 ≤ k ∧ k ≤ (getPaper st pid).reviews.length ∧
          foldAgg (getPaper st pid).reviews
            = foldAgg ((getPaper st pid).reviews.take k) :=
        ⟨(getPaper st pid).reviews.length, Nat.one_le_iff_ne_zero.mpr hlen,
          Nat.le_refl _, by rw [List.take_length]⟩
      apply putPaper_inv_le h
      · exact ⟨fun hc2 => absurd hc2 hex, fun _ => hk, fun _ => ⟨hex, hk⟩⟩
      · exact ⟨fun _ => rfl, fun hp2 => hp2, Nat.le_refl _,
          fun _ _ => reviewLE_refl _⟩
  | publishPaper pid =>
    rcases hr : runOp chk st (.publishPaper pid) with e | st₂
    · rw [applyOp_of_error hr]; exact ⟨h, stateLE_refl st⟩
    · rw [applyOp_of_ok hr]
      obtain ⟨hex, hagg, hpub, rfl⟩ := publishPaper_ok hr
      obtain ⟨hA, hB, hC⟩ := h pid
      apply putPaper_inv_le h
      · exact ⟨fun hc2 => absurd hc2 hex, fun h2 => hB h2,
          fun _ => ⟨hex, hB hagg⟩⟩
      · exact ⟨fun _ => rfl, fun _ => rfl, Nat.le_refl _,
          fun _ _ => reviewLE_refl _⟩
  | verifyReview pid i clear pr =>
    rcases hr : runOp chk st (.verifyReview pid i clear pr) with e | st₂
    · rw [applyOp_of_error hr]; exact ⟨h, stateLE_refl st⟩
    · rw [applyOp_of_ok hr]
      obtain ⟨hex, hi, hv, rfl⟩ := verifyReview_ok hr
      obtain ⟨hA, hB, hC⟩ := h pid
      apply putPaper_inv_le h
      · refine ⟨fun hc2 => absurd hc2 hex, ?_, ?_⟩
        · intro hagg
          obtain ⟨k, hk1, hk2, hk3⟩ := hB hagg
          exact ⟨k, hk1, le_of_le_of_eq hk2 (List.length_set _ _ _).symm,
            hk3.trans
              (foldAgg_take_set (getPaper st pid).reviews i k
                { (getPaper st pid).reviews.getD i defaultReview with
                  isVerified := true } rfl).symm⟩
        · intro hpub
          obtain ⟨ht, k, hk1, hk2, hk3⟩ := hC hpub
          exact ⟨ht, k, hk1, le_of_le_of_eq hk2 (List.length_set _ _ _).symm,
            hk3.trans
              (foldAgg_take_set (getPaper st pid).reviews i k
                { (getPaper st pid).reviews.getD i defaultReview with
                  isVerified := true } rfl).symm⟩
      · refine ⟨fun _ => rfl, fun hp2 => hp2,
          Nat.le_of_eq (List.length_set _ _ _).symm, ?_⟩
        intro j hj
        by_cases hji : j = i
        · subst hji
          show reviewLE ((getPaper st pid).reviews.getD j defaultReview)
            (((getPaper st pid).reviews.set j
              { (getPaper st pid).reviews.getD j defaultReview with
                isVerified := true }).getD j defaultReview)
          rw [getD_set_eq _ _ _ _ hj]
          exact ⟨rfl, rfl, rfl, rfl, fun _ => rfl⟩
        · show reviewLE ((getPaper st pid).reviews.getD j defaultReview)
            (((getPaper st pid).reviews.set i
              { (getPaper st pid).reviews.getD i defaultReview with
                isVerified := true }).getD j defaultReview)
          rw [getD_set_ne _ _ _ _ _ hji]
          exact reviewLE_refl _

theorem exec_inv_le (chk : Chk) (ops : List Op) (st : ContractState)
    (h : Inv st) :
    Inv (execFrom chk st ops) ∧ stateLE st (execFrom chk st ops) := by
  induction ops generalizing st with
  | nil => exact ⟨h, stateLE_refl st⟩
  | cons op t ih =>
    have h1 := step_inv_le chk st op h
    have h2 := ih (applyOp chk st op) h1.1
    exact ⟨h2.1, stateLE_trans h1.2 h2.2⟩

theorem inv_init : Inv initState := by
  intro pid
  have hd : getPaper initState pid = defaultPaper := rfl
  rw [hd]
  exact ⟨fun _ => ⟨rfl, rfl, rfl⟩, fun hc => absurd rfl hc,
    fun hc => by simp [defaultPaper] at hc⟩

/-! ### The top-level reviews mapping only ever holds unverified snapshots -/

/-- Every entry of the top-level `reviews` mapping reports `isVerified = false`
(the default record included). -/
def SnapInv (st : ContractState) : Prop :=
  ∀ k, (getSnap st k).isVerified = false

theorem snap_init : SnapInv initState := fun _ => rfl

theorem step_snap (chk : Chk) (st : ContractState) (op : Op)
    (h : SnapInv st) : SnapInv (applyOp chk st op) := by
  cases op with
  | submitPaper pid t c s ts =>
    rcases hr : runOp chk st (.submitPaper pid t c s ts) with e | st₂
    · rw [applyOp_of_error hr]; exact h
    · rw [applyOp_of_ok hr]
      obtain ⟨_, _, rfl⟩ := submitPaper_ok hr
      exact h
  | submitReview pid sc c s ts =>
    rcases hr : runOp chk st (.submitReview pid sc c s ts) with e | st₂
    · rw [applyOp_of_error hr]; exact h
    · rw [applyOp_of_ok hr]
      obtain ⟨_, _, rfl⟩ := submitReview_ok hr
      intro k
      by_cases hk : k = encKey pid (getPaper st pid).reviews.length
      · subst hk
        show ((alookup (aupd st.reviewsMap _ _) _).getD defaultReview).isVerified
          = false
        rw [alookup_aupd_self]
        rfl
      · show ((alookup (aupd st.reviewsMap _ _) k).getD defaultReview).isVerified
          = false
        rw [alookup_aupd_ne _ _ _ _ hk]
        exact h k
  | aggregateScores pid =>
    rcases hr : runOp chk st (.aggregateScores pid) with e | st₂
    · rw [applyOp_of_error hr]; exact h
    · rw [applyOp_of_ok hr]
      obtain ⟨_, _, rfl⟩ := aggregateScores_ok hr
      exact h
  | publishPaper pid =>
    rcases hr : runOp chk st (.publishPaper pid) with e | st₂
    · rw [applyOp_of_error hr]; exact h
    · rw [applyOp_of_ok hr]
      obtain ⟨_, _, _, rfl⟩ := publishPaper_ok hr
      exact h
  | verifyReview pid i clear pr =>
    rcases hr : runOp chk st (.verifyReview pid i clear pr) with e | st₂
    · rw [applyOp_of_error hr]; exact h
    · rw [applyOp_of_ok hr]
      obtain ⟨_, _, _, rfl⟩ := verifyReview_ok hr
      exact h

theorem exec_snap (chk : Chk) (ops : List Op) (st : ContractState)
    (h : SnapInv st) : SnapInv (execFrom chk st ops) := by
  induction ops generalizing st with
  | nil => exact h
  | cons op t ih => exact ih _ (step_snap chk st op h)

/-! ### Forward success lemmas and title stability -/

theorem execFrom_cons (chk : Chk) (st : ContractState) (op : Op)
    (ops : List Op) :
    execFrom chk st (op :: ops) = execFrom chk (applyOp chk st op) ops := rfl

theorem submitReview_succeeds (st : ContractState) (pid : String)
    (sc : Option Nat) (c : String) (s ts : Nat)
    (h : bytesLen (getPaper st pid).title ≠ 0) (hsc : isInitialized sc = true) :
    submitReview st pid sc c s ts
      = .ok (setRM (putPaper st pid
          { getPaper st pid with
            reviews := (getPaper st pid).reviews ++ [mkReview sc c s ts] })
          (aupd st.reviewsMap
            (encKey pid (getPaper st pid).reviews.length)
            (mkReview sc c s ts))) := by
  have hlen : ((getPaper st pid).reviews ++ [mkReview sc c s ts]).length - 1
      = (getPaper st pid).reviews.length := by simp
  unfold submitReview
  rw [if_neg h, if_pos hsc]
  dsimp only
  rw [hlen]
  rfl

theorem aggregateScores_succeeds (st : ContractState) (pid : String)
    (h : bytesLen (getPaper st pid).title ≠ 0)
    (hlen : (getPaper st pid).reviews.length ≠ 0) :
    aggregateScores st pid
      = .ok (putPaper st pid
          { getPaper st pid with
            aggregatedScore := foldAgg (getPaper st pid).reviews }) := by
  unfold aggregateScores
  rw [if_neg h, if_neg hlen]

theorem title_stable_step (chk : Chk) (st : ContractState) (op : Op)
    (pid : String) (h : bytesLen (getPaper st pid).title ≠ 0) :
    (getPaper (applyOp chk st op) pid).title = (getPaper st pid).title := by
  cases op with
  | submitPaper pid' t c s ts =>
    rcases hr : runOp chk st (.submitPaper pid' t c s ts) with e | st₂
    · rw [applyOp_of_error hr]
    · rw [applyOp_of_ok hr]
      obtain ⟨h0, _, rfl⟩ := submitPaper_ok hr
      by_cases he : pid = pid'
      · subst he; exact absurd h0 h
      · rw [getPaper_putPaper_ne _ _ _ _ he]
  | submitReview pid' sc c s ts =>
    rcases hr : runOp chk st (.submitReview pid' sc c s ts) with e | st₂
    · rw [applyOp_of_error hr]
    · rw [applyOp_of_ok hr]
      obtain ⟨_, _, rfl⟩ := submitReview_ok hr
      by_cases he : pid = pid'
      · subst he
        show (getPaper (putPaper st pid _) pid).title = _
        rw [getPaper_putPaper_self]
      · show (getPaper (putPaper st pid' _) pid).title = _
        rw [getPaper_putPaper_ne _ _ _ _ he]
  | aggregateScores pid' =>
    rcases hr : runOp chk st (.aggregateScores pid') with e | st₂
    · rw [applyOp_of_error hr]
    · rw [applyOp_of_ok hr]
      obtain ⟨_, _, rfl⟩ := aggregateScores_ok hr
      by_cases he : pid = pid'
      · subst he; rw [getPaper_putPaper_self]
      · rw [getPaper_putPaper_ne _ _ _ _ he]
  | publishPaper pid' =>
    rcases hr : runOp chk st (.publishPaper pid') with e | st₂
    · rw [applyOp_of_error hr]
    · rw [applyOp_of_ok hr]
      obtain ⟨_, _, _, rfl⟩ := publishPaper_ok hr
      by_cases he : pid = pid'
      · subst he; rw [getPaper_putPaper_self]
      · rw [getPaper_putPaper_ne _ _ _ _ he]
  | verifyReview pid' i clear pr =>
    rcases hr : runOp chk st (.verifyReview pid' i clear pr) with e | st₂
    · rw [applyOp_of_error hr]
    · rw [applyOp_of_ok hr]
      obtain ⟨_, _, _, rfl⟩ := verifyReview_ok hr
      by_cases he : pid = pid'
      · subst he; rw [getPaper_putPaper_self]
      · rw [getPaper_putPaper_ne _ _ _ _ he]

theorem title_stable_exec (chk : Chk) (ops : List Op) (st : ContractState)
    (pid : String) (h : bytesLen (getPaper st pid).title ≠ 0) :
    (getPaper (execFrom chk st ops) pid).title = (getPaper st pid).title := by
  induction ops generalizing st with
  | nil => rfl
  | cons op t ih =>
    have h1 := title_stable_step chk st op pid h
    have h2 : bytesLen (getPaper (applyOp chk st op) pid).title ≠ 0 := by
      rw [h1]; exact h
    rw [execFrom_cons, ih (applyOp chk st op) h2, h1]

/-! ### Effect of a batch of review submissions (for commutativity) -/

/-- A review submission described by its data `(score, comments, sender,
timestamp)`, with a well-formed external ciphertext. -/
def subOp (pid : String) (x : Nat × String × Nat × Nat) : Op :=
  .submitReview pid (some x.1) x.2.1 x.2.2.1 x.2.2.2

/-- The review record such a submission appends. -/
def subReviewRec (x : Nat × String × Nat × Nat) : Review :=
  mkReview (some x.1) x.2.1 x.2.2.1 x.2.2.2

theorem submits_append (chk : Chk) (pid : String)
    (subs : List (Nat × String × Nat × Nat)) :
    ∀ st : ContractState, bytesLen (getPaper st pid).title ≠ 0 →
    (getPaper (execFrom chk st (subs.map (subOp pid))) pid).reviews
        = (getPaper st pid).reviews ++ subs.map subReviewRec ∧
    (getPaper (execFrom chk st (subs.map (subOp pid))) pid).title
        = (getPaper st pid).title := by
  induction subs with
  | nil => intro st h; simp [execFrom]
  | cons x t ih =>
    intro st h
    have hx := submitReview_succeeds st pid (some x.1) x.2.1 x.2.2.1 x.2.2.2 h
      rfl
    have happ : applyOp chk st (subOp pid x)
        = setRM (putPaper st pid
            { getPaper st pid with
              reviews := (getPaper st pid).reviews
                ++ [mkReview (some x.1) x.2.1 x.2.2.1 x.2.2.2] })
            (aupd st.reviewsMap
              (encKey pid (getPaper st pid).reviews.length)
              (mkReview (some x.1) x.2.1 x.2.2.1 x.2.2.2)) :=
      applyOp_of_ok hx
    have hrevA : (getPaper (applyOp chk st (subOp pid x)) pid).reviews
        = (getPaper st pid).reviews ++ [subReviewRec x] := by
      rw [happ]
      show (getPaper (putPaper st pid _) pid).reviews = _
      rw [getPaper_putPaper_self]
      rfl
    have htitleA : (getPaper (applyOp chk st (subOp pid x)) pid).title
        = (getPaper st pid).title := by
      rw [happ]
      show (getPaper (putPaper st pid _) pid).title = _
      rw [getPaper_putPaper_self]
    have hA : bytesLen (getPaper (applyOp chk st (subOp pid x)) pid).title
        ≠ 0 := by rw [htitleA]; exact h
    obtain ⟨ihrev, ihtitle⟩ := ih (applyOp chk st (subOp pid x)) hA
    rw [List.map_cons, execFrom_cons]
    constructor
    · rw [ihrev, hrevA, List.map_cons, List.append_assoc]
      rfl
    · rw [ihtitle, htitleA]

/-! ### Concrete fixtures used by witnesses and counterexamples -/

/-- One paper "p1", no reviews yet. -/
def stP : ContractState :=
  execFrom chkTrue initState [.submitPaper "p1" "t" (some 5) 1 0]

/-- Paper "p1" with one review of score 7. -/
def trc1 : List Op :=
  [.submitPaper "p1" "t" (some 5) 1 0, .submitReview "p1" (some 7) "c" 2 0]

def st1 : ContractState := execFrom chkTrue initState trc1

/-- As `st1`, after a successful verification of review 0. -/
def trc2 : List Op := trc1 ++ [.verifyReview "p1" 0 [7] []]

def st2 : ContractState := execFrom chkTrue initState trc2

/-- Paper "p3" with one review of score 0. -/
def trc3 : List Op :=
  [.submitPaper "p3" "t" (some 5) 1 0, .submitReview "p3" (some 0) "c" 2 0]

def st3 : ContractState := execFrom chkTrue initState trc3

/-- As `st3`, after aggregating (the encrypted sum is 0). -/
def st3a : ContractState :=
  execFrom chkTrue initState (trc3 ++ [.aggregateScores "p3"])

/-- As `st1`, after aggregate and publish. -/
def trc5 : List Op := trc1 ++ [.aggregateScores "p1", .publishPaper "p1"]

def st5 : ContractState := execFrom chkTrue initState trc5

/-- As `st1`, after aggregate only (encrypted sum 7, unpublished). -/
def st7 : ContractState :=
  execFrom chkTrue initState (trc1 ++ [.aggregateScores "p1"])

/-! ### Claims -/

/-- C1, counterexample: after `verifyReview` has succeeded on review 0 of
paper "p1" (first conjunct), a second `verifyReview` call on the same handle
reverts with the "Review already verified" error — a bare error carrying no
stored clear value — rather than returning an `AlreadyVerified` outcome with
the stored value, as the claim asserts. No clear value is stored on-chain at
all: the contract's `Review` record has no such field. -/
theorem claim1_counterexample :
    verifyReview chkTrue st1 "p1" 0 [7] [] = .ok st2 ∧
    verifyReview chkTrue st2 "p1" 0 [7] [] = .error .reviewAlreadyVerified := by
  decide

/-- C1, amended: once a review's score handle is verified, every subsequent
`verifyReview` call on it — with any claimed clear value, any proof and any
substrate signature check `chk` (so the proof is never re-checked) — reverts
with the "Review already verified" error, and the reverted transaction leaves
the contract state unchanged. The short-circuit is benign in the sense that no
state is altered, but it surfaces as an error and returns no stored clear
value (none is ever stored). -/
theorem claim1_amended (chk : Chk) (st : ContractState) (pid : String) (i : Nat)
    (clear pr : List Nat) (hex : bytesLen (getPaper st pid).title ≠ 0)
    (hi : i < (getPaper st pid).reviews.length)
    (hv : ((getPaper st pid).reviews.getD i defaultReview).isVerified = true) :
    verifyReview chk st pid i clear pr = .error .reviewAlreadyVerified ∧
    applyOp chk st (.verifyReview pid i clear pr) = st := by
  have h1 : verifyReview chk st pid i clear pr
      = .error .reviewAlreadyVerified := by
    unfold verifyReview
    rw [if_neg hex, if_pos hi]
    dsimp only
    rw [if_pos hv]
  exact ⟨h1, applyOp_of_error h1⟩

/-- C1, witness of the amended claim at the concrete state `st2`. -/
theorem claim1_amended_witness :
    verifyReview chkTrue st2 "p1" 0 [9] [8] = .error .reviewAlreadyVerified ∧
    applyOp chkTrue st2 (.verifyReview "p1" 0 [9] [8]) = st2 :=
  claim1_amended chkTrue st2 "p1" 0 [9] [8] (by decide) (by decide) (by decide)

/-- C2, counterexample: two successful `verifyReview` calls from the same
pre-state with different claimed clear values (7 and 9) produce identical
post-states, so the claimed clear value is not stored anywhere: there is no
`clearValue` field, and the "clearValue iff verified" invariant has no
witness in the contract's storage. -/
theorem claim2_counterexample :
    verifyReview chkTrue st1 "p1" 0 [7] [] = .ok st2 ∧
    verifyReview chkTrue st1 "p1" 0 [9] [] = .ok st2 := by
  decide

/-- C2, amended: a successful `verifyReview` starts from `isVerified = false`
and its only storage effect is setting that review's `isVerified` to true — no
clear value is stored (first conjunct characterises the entire post-state);
and `isVerified`, once true in a reachable state, stays true across any
further transactions (it transitions false-to-true exactly once and never
reverts). -/
theorem claim2_amended :
    (∀ (chk : Chk) (st st' : ContractState) (pid : String) (i : Nat)
        (clear pr : List Nat),
      verifyReview chk st pid i clear pr = .ok st' →
      ((getPaper st pid).reviews.getD i defaultReview).isVerified = false ∧
      st' = putPaper st pid
        { getPaper st pid with
          reviews := (getPaper st pid).reviews.set i
            { (getPaper st pid).reviews.getD i defaultReview with
              isVerified := true } }) ∧
    (∀ (chk₀ : Chk) (ops₀ : List Op) (chk : Chk) (ops : List Op)
        (pid : String) (i : Nat),
      ((getPaper (execFrom chk₀ initState ops₀) pid).reviews.getD i
        defaultReview).isVerified = true →
      ((getPaper (execFrom chk (execFrom chk₀ initState ops₀) ops)
        pid).reviews.getD i defaultReview).isVerified = true) := by
  constructor
  · intro chk st st' pid i clear pr h
    obtain ⟨_, _, hv, rfl⟩ := verifyReview_ok h
    exact ⟨hv, rfl⟩
  · intro chk₀ ops₀ chk ops pid i hv
    have hInv := (exec_inv_le chk₀ ops₀ initState inv_init).1
    by_cases hi :
        i < (getPaper (execFrom chk₀ initState ops₀) pid).reviews.length
    · have hle := (exec_inv_le chk ops _ hInv).2 pid
      exact (hle.2.2.2 i hi).2.2.2.2 hv
    · rw [List.getD_eq_default _ _ (Nat.le_of_not_lt hi)] at hv
      exact absurd hv (by decide)

/-- C2, witness of the amended claim: concrete one-shot transition at `st1`
(with the full post-state exhibited), and persistence of the verified flag of
`st2` across a further transaction. -/
theorem claim2_amended_witness :
    (((getPaper st1 "p1").reviews.getD 0 defaultReview).isVerified = false ∧
      st2 = putPaper st1 "p1"
        { getPaper st1 "p1" with
          reviews := (getPaper st1 "p1").reviews.set 0
            { (getPaper st1 "p1").reviews.getD 0 defaultReview with
              isVerified := true } }) ∧
    ((getPaper (execFrom chkTrue (execFrom chkTrue initState trc2)
        [.aggregateScores "p1"]) "p1").reviews.getD 0
      defaultReview).isVerified = true :=
  ⟨claim2_amended.1 chkTrue st1 st2 "p1" 0 [7] [] (by decide),
   claim2_amended.2 chkTrue trc2 chkTrue [.aggregateScores "p1"] "p1" 0
     (by decide)⟩

/-- C3, counterexample: on paper "p3" with a single review of score 0,
`aggregateScores` succeeds (first conjunct), yet the following `publishPaper`
does not succeed — it reverts with "Scores not aggregated", because the
publication gate tests `FHE.isZero` of the encrypted sum, not whether an
aggregation happened. So publish after a successful aggregate is not
unconditional: it depends on the value of the encrypted sum. -/
theorem claim3_counterexample :
    aggregateScores st3 "p3" = .ok st3a ∧
    publishPaper st3a "p3" = .error .scoresNotAggregated := by
  decide

/-- C3, amended: for an existing paper, `publishPaper` fails with the
"Scores not aggregated" error whenever the stored aggregate value is
(encrypted) zero — which covers both "no aggregate call yet" and "aggregate
whose sum is zero"; when the aggregate is nonzero and the paper unpublished,
publish succeeds (setting only `isPublished`), and an immediate second publish
fails with "Paper already published". -/
theorem claim3_amended (st : ContractState) (pid : String)
    (hex : bytesLen (getPaper st pid).title ≠ 0) :
    ((getPaper st pid).aggregatedScore = 0 →
      publishPaper st pid = .error .scoresNotAggregated) ∧
    ((getPaper st pid).aggregatedScore ≠ 0 →
      (getPaper st pid).isPublished = false →
      publishPaper st pid
        = .ok (putPaper st pid { getPaper st pid with isPublished := true }) ∧
      publishPaper
          (putPaper st pid { getPaper st pid with isPublished := true }) pid
        = .error .paperAlreadyPublished) := by
  constructor
  · intro h0
    unfold publishPaper
    rw [if_neg hex, if_pos (show fheIsZero (getPaper st pid).aggregatedScore
      = true by simp [fheIsZero, h0])]
  · intro hagg hpub
    have hz : ¬ (fheIsZero (getPaper st pid).aggregatedScore = true) := by
      simp [fheIsZero]
      exact hagg
    constructor
    · unfold publishPaper
      rw [if_neg hex, if_neg hz,
        if_neg (show ¬ ((getPaper st pid).isPublished = true) by simp [hpub])]
    · unfold publishPaper
      rw [getPaper_putPaper_self]
      dsimp only
      rw [if_neg hex, if_neg hz, if_pos rfl]

/-- C3, witness of the amended claim: publish before aggregation fails on
`stP`; publish after a nonzero aggregate succeeds on `st7` and an immediate
second publish fails with "Paper already published". -/
theorem claim3_amended_witness :
    publishPaper stP "p1" = .error .scoresNotAggregated ∧
    (publishPaper st7 "p1"
        = .ok (putPaper st7 "p1" { getPaper st7 "p1" with isPublished := true }) ∧
      publishPaper
          (putPaper st7 "p1" { getPaper st7 "p1" with isPublished := true }) "p1"
        = .error .paperAlreadyPublished) :=
  ⟨(claim3_amended stP "p1" (by decide)).1 (by decide),
   (claim3_amended st7 "p1" (by decide)).2 (by decide) (by decide)⟩

/-- C4: if the substrate signature check rejects the (claimed clear value,
proof) pair for the exact ciphertext handle of the review — i.e. the proof
does not bind the claimed value to that handle — then `verifyReview` reverts
with the invalid-proof error and the transaction leaves the state unchanged:
`isVerified` stays false and the handle remains encrypted. -/
theorem claim4 (chk : Chk) (st : ContractState) (pid : String) (i : Nat)
    (clear pr : List Nat) (hex : bytesLen (getPaper st pid).title ≠ 0)
    (hi : i < (getPaper st pid).reviews.length)
    (hv : ((getPaper st pid).reviews.getD i defaultReview).isVerified = false)
    (hchk : chk [toBytes32 ((getPaper st pid).reviews.getD i
        defaultReview).encryptedScore] clear pr = false) :
    verifyReview chk st pid i clear pr = .error .invalidProof ∧
    applyOp chk st (.verifyReview pid i clear pr) = st := by
  have h1 : verifyReview chk st pid i clear pr = .error .invalidProof := by
    unfold verifyReview
    rw [if_neg hex, if_pos hi]
    dsimp only
    rw [if_neg (show ¬ (((getPaper st pid).reviews.getD i
        defaultReview).isVerified = true) from fun hc => by
          rw [hv] at hc; exact Bool.noConfusion hc),
      if_neg (show ¬ (chk [toBytes32 ((getPaper st pid).reviews.getD i
        defaultReview).encryptedScore] clear pr = true) from fun hc => by
          rw [hchk] at hc; exact Bool.noConfusion hc)]
  exact ⟨h1, applyOp_of_error h1⟩

/-- C4, witness: with the all-rejecting substrate check, verification of the
unverified review of `st1` fails with the invalid-proof error and the state is
unchanged. -/
theorem claim4_witness :
    verifyReview chkFalse st1 "p1" 0 [7] [] = .error .invalidProof ∧
    applyOp chkFalse st1 (.verifyReview "p1" 0 [7] []) = st1 :=
  claim4 chkFalse st1 "p1" 0 [7] [] (by decide) (by decide) (by decide)
    (by decide)

/-- C5: in any reachable state, a published paper's aggregate was produced by
the homomorphic fold over the first `k ≥ 1` of its review score handles (so at
least one review contributed and the paper has a nonempty review list), and
`isPublished`, once true, remains true after any further transactions. -/
theorem claim5 (chk : Chk) (ops : List Op) (pid : String)
    (h : (getPaper (execFrom chk initState ops) pid).isPublished = true) :
    (∃ k, 1 ≤ k ∧
      k ≤ (getPaper (execFrom chk initState ops) pid).reviews.length ∧
      (getPaper (execFrom chk initState ops) pid).aggregatedScore
        = foldAgg ((getPaper (execFrom chk initState ops) pid).reviews.take k)) ∧
    (getPaper (execFrom chk initState ops) pid).reviews ≠ [] ∧
    (∀ (chk' : Chk) (ops' : List Op),
      (getPaper (execFrom chk' (execFrom chk initState ops) ops')
        pid).isPublished = true) := by
  have hInv := (exec_inv_le chk ops initState inv_init).1
  obtain ⟨hA, hB, hC⟩ := hInv pid
  obtain ⟨ht, k, hk1, hk2, hk3⟩ := hC h
  refine ⟨⟨k, hk1, hk2, hk3⟩, ?_, ?_⟩
  · intro hnil
    rw [hnil] at hk2
    simp at hk2
    omega
  · intro chk' ops'
    exact ((exec_inv_le chk' ops' _ hInv).2 pid).2.1 h

/-- C5, witness at the concrete published state `st5`: the review list is
nonempty and publication persists across a further transaction. -/
theorem claim5_witness :
    (getPaper st5 "p1").reviews ≠ [] ∧
    (getPaper (execFrom chkFalse (execFrom chkTrue initState trc5)
      [.publishPaper "p1"]) "p1").isPublished = true :=
  ⟨(claim5 chkTrue trc5 "p1" (by decide)).2.1,
   (claim5 chkTrue trc5 "p1" (by decide)).2.2 chkFalse [.publishPaper "p1"]⟩

/-- C6: `aggregateScores` fails with the paper-not-found error when the paper
does not exist, with the nothing-to-aggregate error when it has no reviews,
and otherwise succeeds, its entire effect being to store the homomorphic fold
of all the paper's review score handles (in ascending review-index order, left
to right through the list) as the paper's aggregate, replacing any previous
aggregate and leaving every other storage location unchanged; the sum is never
decrypted or inspected — the stored value is the ciphertext-level fold.
Re-invocation after new reviews recomputes over the then-current list and
overwrites, by the same equation. -/
theorem claim6 (st : ContractState) (pid : String) :
    (bytesLen (getPaper st pid).title = 0 →
      aggregateScores st pid = .error .paperDoesNotExist) ∧
    (bytesLen (getPaper st pid).title ≠ 0 →
      (getPaper st pid).reviews.length = 0 →
      aggregateScores st pid = .error .noReviewsToAggregate) ∧
    (bytesLen (getPaper st pid).title ≠ 0 →
      (getPaper st pid).reviews.length ≠ 0 →
      aggregateScores st pid = .ok (putPaper st pid
        { getPaper st pid with
          aggregatedScore := foldAgg (getPaper st pid).reviews })) := by
  refine ⟨?_, ?_, ?_⟩
  · intro h0
    unfold aggregateScores
    rw [if_pos h0]
  · intro hex h0
    unfold aggregateScores
    rw [if_neg hex, if_pos h0]
  · intro hex hn
    exact aggregateScores_succeeds st pid hex hn

/-- C6, witness: missing paper, paper without reviews, and a successful
aggregation whose effect is exactly the stored fold. -/
theorem claim6_witness :
    aggregateScores initState "p1" = .error .paperDoesNotExist ∧
    aggregateScores stP "p1" = .error .noReviewsToAggregate ∧
    aggregateScores st1 "p1" = .ok (putPaper st1 "p1"
      { getPaper st1 "p1" with
        aggregatedScore := foldAgg (getPaper st1 "p1").reviews }) :=
  ⟨(claim6 initState "p1").1 (by decide),
   (claim6 stP "p1").2.1 (by decide) (by decide),
   (claim6 st1 "p1").2.2 (by decide) (by decide)⟩

/-- C7: aggregation is commutative in the submission order of the reviews —
for any two permutations of the same batch of review submissions to an
existing paper, running the batch and then one `aggregateScores` call yields
the same aggregate (and hence the same eventual cleartext sum, since the
modelled aggregate is the ciphertext's value). -/
theorem claim7 (chk : Chk) (st : ContractState) (pid : String)
    (subs₁ subs₂ : List (Nat × String × Nat × Nat))
    (hperm : subs₁.Perm subs₂) (hne : subs₁ ≠ [])
    (hex : bytesLen (getPaper st pid).title ≠ 0) :
    (getPaper (applyOp chk (execFrom chk st (subs₁.map (subOp pid)))
      (.aggregateScores pid)) pid).aggregatedScore
    = (getPaper (applyOp chk (execFrom chk st (subs₂.map (subOp pid)))
      (.aggregateScores pid)) pid).aggregatedScore := by
  obtain ⟨hrev₁, htitle₁⟩ := submits_append chk pid subs₁ st hex
  obtain ⟨hrev₂, htitle₂⟩ := submits_append chk pid subs₂ st hex
  have hne₂ : subs₂ ≠ [] := fun hnil => hne (List.Perm.eq_nil (hnil ▸ hperm))
  have hm₁ : subs₁.map subReviewRec ≠ [] :=
    fun hcon => hne (List.map_eq_nil_iff.mp hcon)
  have hm₂ : subs₂.map subReviewRec ≠ [] :=
    fun hcon => hne₂ (List.map_eq_nil_iff.mp hcon)
  have hlen₁ : (getPaper (execFrom chk st (subs₁.map (subOp pid)))
      pid).reviews.length ≠ 0 := by
    rw [hrev₁, List.length_append]
    have := List.length_pos.mpr hm₁
    omega
  have hlen₂ : (getPaper (execFrom chk st (subs₂.map (subOp pid)))
      pid).reviews.length ≠ 0 := by
    rw [hrev₂, List.length_append]
    have := List.length_pos.mpr hm₂
    omega
  have hA : runOp chk (execFrom chk st (subs₁.map (subOp pid)))
      (Op.aggregateScores pid)
      = .ok (putPaper (execFrom chk st (subs₁.map (subOp pid))) pid
          { getPaper (execFrom chk st (subs₁.map (subOp pid))) pid with
            aggregatedScore :=
              foldAgg (getPaper (execFrom chk st
                (subs₁.map (subOp pid))) pid).reviews }) :=
    aggregateScores_succeeds _ pid (by rw [htitle₁]; exact hex) hlen₁
  have hB : runOp chk (execFrom chk st (subs₂.map (subOp pid)))
      (Op.aggregateScores pid)
      = .ok (putPaper (execFrom chk st (subs₂.map (subOp pid))) pid
          { getPaper (execFrom chk st (subs₂.map (subOp pid))) pid with
            aggregatedScore :=
              foldAgg (getPaper (execFrom chk st
                (subs₂.map (subOp pid))) pid).reviews }) :=
    aggregateScores_succeeds _ pid (by rw [htitle₂]; exact hex) hlen₂
  rw [applyOp_of_ok hA, applyOp_of_ok hB]
  simp only [getPaper_putPaper_self]
  rw [hrev₁, hrev₂]
  exact foldAgg_perm _ _
    (List.Perm.append_left _ (hperm.map subReviewRec))

/-- C7, witness: submitting scores 7, 8, 9 in two different orders and
aggregating yields the same aggregate value. -/
theorem claim7_witness :
    (getPaper (applyOp chkTrue (execFrom chkTrue stP
        ([(7, "a", 2, 0), (8, "b", 3, 0), (9, "c", 4, 0)].map (subOp "p1")))
      (.aggregateScores "p1")) "p1").aggregatedScore
    = (getPaper (applyOp chkTrue (execFrom chkTrue stP
        ([(9, "c", 4, 0), (7, "a", 2, 0), (8, "b", 3, 0)].map (subOp "p1")))
      (.aggregateScores "p1")) "p1").aggregatedScore :=
  claim7 chkTrue stP "p1"
    [(7, "a", 2, 0), (8, "b", 3, 0), (9, "c", 4, 0)]
    [(9, "c", 4, 0), (7, "a", 2, 0), (8, "b", 3, 0)]
    (by decide) (by decide) (by decide)

/-- C8, counterexample: a paper submission with an empty title succeeds and
stores a record (submitter 1, encrypted content 5), yet a second submission
under the same id also succeeds and overwrites that record (submitter becomes
2) — so the claim that any submission under an already-assigned id fails, and
that no record is ever overwritten, is false. The contract's existence check
`bytes(papers[paperId].title).length == 0` treats the stored empty-title
record as nonexistent. -/
theorem claim8_counterexample :
    (submitPaper initState "p1" "" (some 5) 1 0).isOk = true ∧
    (getPaper (applyOp chkTrue initState
      (.submitPaper "p1" "" (some 5) 1 0)) "p1").submitter = 1 ∧
    (getPaper (applyOp chkTrue initState
      (.submitPaper "p1" "" (some 5) 1 0)) "p1").encryptedContent = 5 ∧
    (submitPaper (applyOp chkTrue initState
      (.submitPaper "p1" "" (some 5) 1 0)) "p1" "t" (some 6) 2 3).isOk = true ∧
    (getPaper (execFrom chkTrue initState
      [.submitPaper "p1" "" (some 5) 1 0,
       .submitPaper "p1" "t" (some 6) 2 3]) "p1").submitter = 2 := by
  decide

/-- C8, amended: once a paper with a NON-EMPTY title is stored under an id,
any later submission under that id fails with the paper-already-exists error,
and the paper's id binding is immutable: its title survives any sequence of
further transactions unchanged. (A submission with empty title stores a record
the contract itself treats as nonexistent, and only such a record can be
overwritten.) -/
theorem claim8_amended (st : ContractState) (pid t : String) (c : Option Nat)
    (s ts : Nat) (hex : bytesLen (getPaper st pid).title ≠ 0) :
    submitPaper st pid t c s ts = .error .paperAlreadyExists ∧
    (∀ (chk : Chk) (ops : List Op),
      (getPaper (execFrom chk st ops) pid).title = (getPaper st pid).title) := by
  constructor
  · unfold submitPaper
    rw [if_pos hex]
  · intro chk ops
    exact title_stable_exec chk ops st pid hex

/-- C8, witness at `st1`: re-submission of "p1" fails, and the title survives
two further transactions. -/
theorem claim8_amended_witness :
    submitPaper st1 "p1" "other" (some 9) 9 9 = .error .paperAlreadyExists ∧
    (getPaper (execFrom chkTrue st1
      [.submitReview "p1" (some 3) "d" 3 1, .aggregateScores "p1"])
      "p1").title = (getPaper st1 "p1").title :=
  ⟨(claim8_amended st1 "p1" "other" (some 9) 9 9 (by decide)).1,
   (claim8_amended st1 "p1" "other" (some 9) 9 9 (by decide)).2 chkTrue
     [.submitReview "p1" (some 3) "d" 3 1, .aggregateScores "p1"]⟩

/-- C9: a review submission against a nonexistent paper fails with the
paper-does-not-exist error; a successful submission appends the new review at
the end of the paper's review list (so indices are the list positions
0, 1, 2, ... — contiguous, gap-free, assigned monotonically at append time);
and along any further transactions from any reachable state each existing
review keeps its position and its submission-time fields (the `stateLE`
order: lists only grow at the end and entries never change except the one-way
verified flag), so indices are never reused or reordered. -/
theorem claim9 :
    (∀ (st : ContractState) (pid : String) (sc : Option Nat) (c : String)
        (s ts : Nat), bytesLen (getPaper st pid).title = 0 →
      submitReview st pid sc c s ts = .error .paperDoesNotExist) ∧
    (∀ (st st' : ContractState) (pid : String) (sc : Option Nat) (c : String)
        (s ts : Nat), submitReview st pid sc c s ts = .ok st' →
      (getPaper st' pid).reviews
        = (getPaper st pid).reviews ++ [mkReview sc c s ts]) ∧
    (∀ (chk₀ : Chk) (ops₀ : List Op) (chk : Chk) (ops : List Op),
      stateLE (execFrom chk₀ initState ops₀)
        (execFrom chk (execFrom chk₀ initState ops₀) ops)) := by
  refine ⟨?_, ?_, ?_⟩
  · intro st pid sc c s ts h0
    unfold submitReview
    rw [if_pos h0]
  · intro st st' pid sc c s ts h
    obtain ⟨_, _, rfl⟩ := submitReview_ok h
    show (getPaper (putPaper st pid _) pid).reviews = _
    rw [getPaper_putPaper_self]
  · intro chk₀ ops₀ chk ops
    exact (exec_inv_le chk ops _
      ((exec_inv_le chk₀ ops₀ initState inv_init).1)).2

/-- C9, witness: failed submission against a missing paper, concrete append at
index 0, and monotonicity of a reachable state under one more transaction. -/
theorem claim9_witness :
    submitReview initState "p1" (some 7) "c" 2 0 = .error .paperDoesNotExist ∧
    (getPaper st1 "p1").reviews
      = (getPaper stP "p1").reviews ++ [mkReview (some 7) "c" 2 0] ∧
    stateLE (execFrom chkTrue initState trc1)
      (execFrom chkTrue (execFrom chkTrue initState trc1)
        [.verifyReview "p1" 0 [7] []]) :=
  ⟨claim9.1 initState "p1" (some 7) "c" 2 0 (by decide),
   claim9.2.1 stP st1 "p1" (some 7) "c" 2 0 (by decide),
   claim9.2.2 chkTrue trc1 chkTrue [.verifyReview "p1" 0 [7] []]⟩

/-- C10: the snapshot written into the top-level `reviews` mapping at
submission is never updated afterwards — in every reachable state every entry
of that mapping reports `isVerified = false` (first conjunct), and a
successful `verifyReview`, which mutates only
`papers[paperId].reviews[reviewIndex]`, leaves the mapping untouched (second
conjunct) — while `getReviewDetails`, which reads the review inside the
paper record, reports that review's current fields, in particular
`isVerified = true` once verified (third conjunct). -/
theorem claim10 :
    (∀ (chk : Chk) (ops : List Op) (k : List Nat),
      (getSnap (execFrom chk initState ops) k).isVerified = false) ∧
    (∀ (chk : Chk) (st st' : ContractState) (pid : String) (i : Nat)
        (clear pr : List Nat),
      verifyReview chk st pid i clear pr = .ok st' →
      st'.reviewsMap = st.reviewsMap) ∧
    (∀ (st : ContractState) (pid : String) (i : Nat),
      bytesLen (getPaper st pid).title ≠ 0 →
      i < (getPaper st pid).reviews.length →
      getReviewDetails st pid i = .ok
        (((getPaper st pid).reviews.getD i defaultReview).encryptedScore,
         ((getPaper st pid).reviews.getD i defaultReview).encryptedComments,
         ((getPaper st pid).reviews.getD i defaultReview).reviewer,
         ((getPaper st pid).reviews.getD i defaultReview).submissionDate,
         ((getPaper st pid).reviews.getD i defaultReview).isVerified)) := by
  refine ⟨?_, ?_, ?_⟩
  · intro chk ops k
    exact exec_snap chk ops initState snap_init k
  · intro chk st st' pid i clear pr h
    obtain ⟨_, _, _, rfl⟩ := verifyReview_ok h
    rfl
  · intro st pid i hex hi
    unfold getReviewDetails
    rw [if_neg hex, if_pos hi]

/-- C10, witness at `st2` (review 0 of "p1" verified): the mapping entry under
`abi.encodePacked("p1", "_", uint256(0))` still reports false, the verifying
transaction did not change the mapping, and `getReviewDetails` reports true. -/
theorem claim10_witness :
    (getSnap st2 (encKey "p1" 0)).isVerified = false ∧
    st2.reviewsMap = st1.reviewsMap ∧
    getReviewDetails st2 "p1" 0 = .ok (7, "c", 2, 0, true) :=
  ⟨claim10.1 chkTrue trc2 (encKey "p1" 0),
   claim10.2.1 chkTrue st1 st2 "p1" 0 [7] [] (by decide),
   (claim10.2.2 st2 "p1" 0 (by decide) (by decide)).trans (by decide)⟩

end ReviewSystem
